import Mathlib

/-!
Shallow embedding of the windowed concurrent ordered block-fetch engine of
`trio_web3` (`src/trio_web3/__init__.py`, `src/trio_web3/types.py`).

The embedding is written from the source:
* `Block` keeps the two fields of `trio_web3.types.Block` that the streaming
  engine reads (`block.number`, `block.timestamp`); the remaining fields are
  opaque payload never inspected by `_stream_blocks`.
* `json_rpc_check` models the error-envelope handling of `AsyncWeb3.json_rpc`
  (lines 61-63).
* `block_task_loop` / `block_task` model the per-block retry loop
  (lines 117-134).
* `dinsert` / `dlookup` / `derase` model the Python dict operations used on
  `pending` (lines 171-177), as association lists.
* `drain`, `receive_block`, `consume` model the consumer loop
  (lines 170-180).
* `resolve_end` models `if not end_block: end_block = 2 ** 64`
  (lines 105-106).
* `SpawnerState` / `step` / `run` model the interleaved execution of
  `block_task_spawner` (lines 141-166), `head_block_updater` (lines 111-114)
  and task completions (line 134), including the Python scoping of the
  closure variables (`nonlocal` declarations are present only for
  `max_tasks` and `current_block`).
-/

set_option autoImplicit false

namespace TrioWeb3

/-- The projection of `trio_web3.types.Block` to the fields read by the
streaming engine: `number` (line 108 of types.py) and `timestamp`
(line 109 of types.py).  All other fields are payload that
`_stream_blocks` never inspects. -/
structure Block where
  number : Nat
  timestamp : Nat
deriving DecidableEq, Repr

/-- The projection of `trio_web3.types.JSONRPCResult` to the fields read by
`json_rpc`: the `result` payload and the `error` member of the envelope
(`error = none` models a null / absent error member). -/
structure JSONRPCResult where
  id : Nat
  result : Option String
  error : Option String
deriving DecidableEq, Repr

/-- `AsyncWeb3.json_rpc` envelope handling (src/trio_web3/__init__.py
lines 61-63): after decoding, `if resp.error: raise ValueError(resp)`;
otherwise the response is returned. -/
def json_rpc_check (resp : JSONRPCResult) : Except JSONRPCResult JSONRPCResult :=
  if resp.error.isSome then Except.error resp else Except.ok resp

/-- Outcome of one `get_block` call made inside `block_task` (line 120):
`Except.error ()` models `json_rpc` raising `ValueError` on a protocol-level
error envelope (line 63); `Except.ok none` models a successful RPC whose
`result` is null (block absent, get_block returns `None`, lines 82-86);
`Except.ok (some b)` models a returned block. -/
abbrev Attempt := Except Unit (Option Block)

/-- The retry loop of `block_task` (lines 118-131), processing the list of
attempt outcomes in order.  The accumulator `bound` is the current value of
the Python local variable `block`: `none` means `block` has never been
assigned, `some none` means `block` is `None`, `some (some b)` means
`block` is `b`.  A protocol error raised by `get_block` leaves `block`
unassigned and is caught by `except ValueError`; an absent block assigns
`None` then raises; a zero-timestamp block assigns the block then raises;
a valid block assigns the block and breaks. -/
def block_task_loop : List Attempt → Option (Option Block) → Option (Option Block)
  | [], bound => bound
  | a :: rest, bound =>
    match a with
    | Except.error _ => block_task_loop rest bound
    | Except.ok none => block_task_loop rest (some none)
    | Except.ok (some b) =>
      if b.timestamp = 0 then block_task_loop rest (some (some b))
      else some (some b)

/-- `block_task` (lines 117-134): run the retry loop over (at most) 8
attempts, then execute `await send_channel.send(block)` (line 133).
The result is the value sent on the channel: `some v` means the Python
value `v` is sent (`some none` = the literal `None` is sent);
`none` means `block` was never assigned, so line 133 raises
`UnboundLocalError` instead of sending. -/
def block_task (attempts : List Attempt) : Option (Option Block) :=
  block_task_loop (attempts.take 8) none

/-- `_stream_blocks` end-of-range resolution (lines 105-106):
`if not end_block: end_block = 2 ** 64`.  The Python condition is true for
`None` and for the integer `0`. -/
def resolve_end : Option Nat → Nat
  | none => 2 ^ 64
  | some e => if e = 0 then 2 ^ 64 else e

/-- Python dict assignment `pending[k] = v` (line 174) on an association
list: overwrite the entry for `k` if present, else append. -/
def dinsert (k : Nat) (v : Block) : List (Nat × Block) → List (Nat × Block)
  | [] => [(k, v)]
  | (k', v') :: rest =>
    if k' = k then (k, v) :: rest else (k', v') :: dinsert k v rest

/-- Python dict membership / access `looking_for in pending` (line 176). -/
def dlookup (k : Nat) : List (Nat × Block) → Option Block
  | [] => none
  | (k', v') :: rest => if k' = k then some v' else dlookup k rest

/-- The removal half of Python `pending.pop(looking_for)` (line 177). -/
def derase (k : Nat) : List (Nat × Block) → List (Nat × Block)
  | [] => []
  | (k', v') :: rest => if k' = k then rest else (k', v') :: derase k rest

/-- Keys of the pending dict. -/
def pkeys (l : List (Nat × Block)) : List Nat :=
  l.map Prod.fst

/-- State of the consumer loop of `_stream_blocks` (lines 170-180):
the `pending` dict, the `looking_for` cursor, and the list of blocks
yielded so far (after the initial start block). -/
structure ConsumerState where
  pending : List (Nat × Block)
  looking_for : Nat
  emitted : List Block
deriving DecidableEq, Repr

theorem length_derase_lt_of_dlookup (k : Nat) (l : List (Nat × Block))
    (b : Block) (h : dlookup k l = some b) :
    (derase k l).length < l.length := by
  induction l with
  | nil => simp [dlookup] at h
  | cons p rest ih =>
    obtain ⟨k', v'⟩ := p
    by_cases hk : k' = k
    · simp [derase, hk]
    · simp [dlookup, hk] at h
      simpa [derase, hk, Nat.succ_lt_succ_iff] using ih h

/-- The inner `while looking_for in pending` loop (lines 176-180):
pop and yield `pending[looking_for]` while present; after each yield,
stop if `looking_for == end_block` (line 178-179), else increment
`looking_for` (line 180). -/
def drain (end_block : Nat) (st : ConsumerState) : ConsumerState :=
  match h : dlookup st.looking_for st.pending with
  | none => st
  | some b =>
    if st.looking_for = end_block then
      { pending := derase st.looking_for st.pending
        looking_for := st.looking_for
        emitted := st.emitted ++ [b] }
    else
      drain end_block
        { pending := derase st.looking_for st.pending
          looking_for := st.looking_for + 1
          emitted := st.emitted ++ [b] }
termination_by st.pending.length
decreasing_by
  exact length_derase_lt_of_dlookup _ _ _ h

/-- One iteration of the consumer's `async for block in receive_channel`
loop (lines 173-180): store the arriving block under its number
(line 174), then run the inner drain loop. -/
def receive_block (end_block : Nat) (st : ConsumerState) (b : Block) : ConsumerState :=
  drain end_block { st with pending := dinsert b.number b st.pending }

/-- The consumer loop processing a whole sequence of channel arrivals. -/
def consume (end_block : Nat) (st : ConsumerState) (arrivals : List Block) : ConsumerState :=
  arrivals.foldl (receive_block end_block) st

/-- Consumer state at line 170-171: `looking_for = start_block + 1`,
empty `pending`, nothing yielded yet by the loop. -/
def init_consumer (start_number : Nat) : ConsumerState :=
  { pending := [], looking_for := start_number + 1, emitted := [] }

/-- Everything `_stream_blocks` yields in a session whose start resolved to
`start` and whose channel arrivals are `arrivals`: the start block itself
(line 101) followed by the consumer loop's yields (line 177). -/
def stream_emitted (start : Block) (end_block : Nat) (arrivals : List Block) : List Block :=
  start :: (consume end_block (init_consumer start.number) arrivals).emitted

/-- The start-resolution phase of `_stream_blocks` (lines 96-101) combined
with the rest of the session: `get_block(start_block)` returning `None`
raises `ValueError` (lines 98-99) before anything is yielded; otherwise the
resolved start block is yielded first (line 101) and the session proceeds. -/
def stream_blocks_emissions (start_block : Option Block) (end_block : Nat)
    (arrivals : List Block) : Except String (List Block) :=
  match start_block with
  | none => Except.error "Couldn\t find start block"
  | some b => Except.ok (stream_emitted b end_block arrivals)

/-- The shared state of one streaming session as the three background
activities of `_stream_blocks` see it (lines 108-168).  Python scoping in
the source is modelled exactly:
* `head_block` is the enclosing variable set once on line 108.  The
  assignment on line 114 inside `head_block_updater` targets a variable
  local to `head_block_updater` (there is no `nonlocal head_block`
  declaration), modelled by the separate field `updater_head_local`.
* `need_head_updates` is the enclosing variable set on line 109 and read
  by `head_block_updater`'s loop condition (line 112).  The assignment
  `need_head_updates = False` on line 149 inside `block_task_spawner`
  targets a variable local to `block_task_spawner` (its `nonlocal`
  declarations name only `max_tasks` and `current_block`), modelled by
  the separate field `spawner_need_local`.
* `tasks` (line 144) is modelled by `all_tasks` (the completion flag of
  every event ever appended, in spawn order, `true` = event set) together
  with `pop_count` (how many events have been popped from the front on
  line 156); the live list is `all_tasks.drop pop_count`. -/
structure SpawnerState where
  current_block : Nat
  max_tasks : Nat
  head_block : Nat
  need_head_updates : Bool
  updater_head_local : Option Nat
  spawner_need_local : Option Bool
  all_tasks : List Bool
  pop_count : Nat
  spawned : List Nat
  done_loop : Bool
deriving DecidableEq, Repr

/-- Number of fetch tasks spawned but not yet completed (their event not
yet set on line 134). -/
def outstanding (st : SpawnerState) : Nat :=
  st.all_tasks.count false

/-- Lines 148-150: `if head_block - current_block <= 3`, then both
assignments of the body: `need_head_updates = False` (binding the
spawner-local variable) and `max_tasks = 3` (via `nonlocal`, the shared
limit).  Block numbers are Python ints, so the comparison is over ℤ. -/
def narrow_check (st : SpawnerState) : SpawnerState :=
  if (st.head_block : Int) - (st.current_block : Int) ≤ 3 then
    { st with spawner_need_local := some false, max_tasks := 3 }
  else st

/-- Lines 152 and 158-162: compute `next_block_num = current_block + 1`,
append a fresh (unset) event, `start_soon(block_task, next_block_num,
event)`, and advance `current_block`. -/
def advance (st : SpawnerState) : SpawnerState :=
  { st with
    all_tasks := st.all_tasks ++ [false]
    spawned := st.spawned ++ [st.current_block + 1]
    current_block := st.current_block + 1 }

/-- One iteration of the `while current_block != end_block` loop of
`block_task_spawner` (lines 146-162).  If the loop guard fails the loop
exits (`done_loop`).  Otherwise: the near-head narrowing (lines 148-150),
then `if len(tasks) > max_tasks: await tasks[0].wait(); tasks.pop(0)`
(lines 154-156) — when `tasks[0]`'s event is not yet set the iteration is
suspended at the `await` (state unchanged beyond the already-performed
narrowing; the iteration is re-attempted later), when it is set the event
is popped — and finally the spawn-and-advance (lines 158-162). -/
def spawn_step (end_block : Nat) (st : SpawnerState) : SpawnerState :=
  if st.done_loop then st
  else if st.current_block = end_block then { st with done_loop := true }
  else
    let st' := narrow_check st
    if (st'.all_tasks.drop st'.pop_count).length > st'.max_tasks then
      if st'.all_tasks.getD st'.pop_count false then
        advance { st' with pop_count := st'.pop_count + 1 }
      else st'
    else advance st'

/-- An atomic scheduling action of one session: a spawned `block_task`
finishes and sets its event (line 134); `head_block_updater` wakes from
its sleep, checks the enclosing `need_head_updates` and fetches the head
into its local `head_block` (lines 112-114); or `block_task_spawner` runs
(up to) one loop iteration. -/
inductive Act where
  | taskComplete (i : Nat)
  | headUpdate (h : Nat)
  | spawnStep
deriving DecidableEq, Repr

/-- Effect of one scheduling action on the session state. -/
def step (end_block : Nat) (st : SpawnerState) : Act → SpawnerState
  | Act.taskComplete i => { st with all_tasks := st.all_tasks.set i true }
  | Act.headUpdate h =>
    if st.need_head_updates then { st with updater_head_local := some h } else st
  | Act.spawnStep => spawn_step end_block st

/-- A session run under an arbitrary interleaving of actions. -/
def run (end_block : Nat) (st : SpawnerState) (acts : List Act) : SpawnerState :=
  acts.foldl (step end_block) st

/-- Session state right after lines 108-109 and 136: `current_block`
is the resolved start, `head_block` is the head fetched on line 108,
`need_head_updates = end_block > head_block` (line 109), the default
window limit is the `max_tasks` parameter (10 by default), no tasks yet. -/
def init_spawner (start head max_tasks end_block : Nat) : SpawnerState :=
  { current_block := start
    max_tasks := max_tasks
    head_block := head
    need_head_updates := decide (head < end_block)
    updater_head_local := none
    spawner_need_local := none
    all_tasks := []
    pop_count := 0
    spawned := []
    done_loop := false }

/-! ### Association-list (Python dict) lemmas -/

theorem pkeys_nil : pkeys [] = [] := rfl

theorem pkeys_cons (p : Nat × Block) (l : List (Nat × Block)) :
    pkeys (p :: l) = p.1 :: pkeys l := rfl

theorem dlookup_eq_none_iff (k : Nat) (l : List (Nat × Block)) :
    dlookup k l = none ↔ k ∉ pkeys l := by
  induction l with
  | nil => simp [dlookup, pkeys_nil]
  | cons p rest ih =>
    obtain ⟨k', v'⟩ := p
    by_cases hk : k' = k
    · simp [dlookup, pkeys_cons, hk]
    · simp [dlookup, pkeys_cons, hk, ih, Ne.symm hk]

theorem dlookup_mem (k : Nat) (l : List (Nat × Block)) (b : Block)
    (h : dlookup k l = some b) : (k, b) ∈ l := by
  induction l with
  | nil => simp [dlookup] at h
  | cons p rest ih =>
    obtain ⟨k', v'⟩ := p
    by_cases hk : k' = k
    · subst hk
      simp [dlookup] at h
      simp [h]
    · simp [dlookup, hk] at h
      exact List.mem_cons_of_mem _ (ih h)

theorem dinsert_of_not_mem (k : Nat) (v : Block) (l : List (Nat × Block))
    (h : k ∉ pkeys l) : dinsert k v l = l ++ [(k, v)] := by
  induction l with
  | nil => simp [dinsert]
  | cons p rest ih =>
    obtain ⟨k', v'⟩ := p
    simp only [pkeys_cons, List.mem_cons, not_or] at h
    simp [dinsert, Ne.symm h.1, ih h.2]

theorem pkeys_derase_perm (k : Nat) (l : List (Nat × Block))
    (h : k ∈ pkeys l) : (k :: pkeys (derase k l)).Perm (pkeys l) := by
  induction l with
  | nil => simp [pkeys_nil] at h
  | cons p rest ih =>
    obtain ⟨k', v'⟩ := p
    by_cases hk : k' = k
    · subst hk
      simp [derase, pkeys_cons]
    · have hmem : k ∈ pkeys rest := by
        simp only [pkeys_cons, List.mem_cons] at h
        exact h.resolve_left fun he => hk he.symm
      have h2 := ih hmem
      have hder : pkeys (derase k ((k', v') :: rest)) = k' :: pkeys (derase k rest) := by
        simp [derase, hk, pkeys_cons]
      rw [hder, pkeys_cons]
      exact List.Perm.trans (List.Perm.swap k' k (pkeys (derase k rest)))
        (List.Perm.cons k' h2)

theorem derase_subset (k : Nat) (l : List (Nat × Block)) (p : Nat × Block)
    (h : p ∈ derase k l) : p ∈ l := by
  induction l with
  | nil => simp [derase] at h
  | cons q rest ih =>
    obtain ⟨k', v'⟩ := q
    by_cases hk : k' = k
    · simp [derase, hk] at h
      exact List.mem_cons_of_mem _ h
    · simp [derase, hk] at h
      rcases h with h | h
      · simp [h]
      · exact List.mem_cons_of_mem _ (ih h)

/-- Every entry of the pending dict is stored under its block's number
(it is inserted via `pending[block.number] = block`, line 174). -/
def EntriesOk (l : List (Nat × Block)) : Prop :=
  ∀ p ∈ l, p.1 = p.2.number

theorem entriesOk_dinsert (k : Nat) (v : Block) (l : List (Nat × Block))
    (hk : k = v.number) (h : EntriesOk l) : EntriesOk (dinsert k v l) := by
  induction l with
  | nil =>
    intro p hp
    simp [dinsert] at hp
    simp [hp, hk]
  | cons q rest ih =>
    obtain ⟨k', v'⟩ := q
    have hq : k' = v'.number := h (k', v') (List.mem_cons_self _ _)
    have hrest : EntriesOk rest := fun p hp => h p (List.mem_cons_of_mem _ hp)
    intro p hp
    by_cases hkk : k' = k
    · simp [dinsert, hkk] at hp
      rcases hp with hp | hp
      · simp [hp, hk]
      · exact h p (List.mem_cons_of_mem _ hp)
    · simp only [dinsert, if_neg hkk] at hp
      rcases List.mem_cons.mp hp with hp | hp
      · simp [hp, hq]
      · exact ih hrest p hp

theorem entriesOk_derase (k : Nat) (l : List (Nat × Block))
    (h : EntriesOk l) : EntriesOk (derase k l) :=
  fun p hp => h p (derase_subset k l p hp)

/-! ### Unfolding equations and specification of the drain loop -/

theorem drain_eq_none (e : Nat) (st : ConsumerState)
    (h : dlookup st.looking_for st.pending = none) : drain e st = st := by
  rw [drain]
  split
  · rfl
  · rename_i b' heq
    rw [h] at heq
    cases heq

theorem drain_eq_break (e : Nat) (st : ConsumerState) (b : Block)
    (h : dlookup st.looking_for st.pending = some b)
    (he : st.looking_for = e) :
    drain e st =
      { pending := derase st.looking_for st.pending
        looking_for := st.looking_for
        emitted := st.emitted ++ [b] } := by
  rw [drain]
  split
  · rename_i heq
    rw [h] at heq
    cases heq
  · rename_i b' heq
    rw [h] at heq
    injection heq with hb
    subst hb
    simp [he]

theorem drain_eq_cont (e : Nat) (st : ConsumerState) (b : Block)
    (h : dlookup st.looking_for st.pending = some b)
    (he : ¬ st.looking_for = e) :
    drain e st = drain e
      { pending := derase st.looking_for st.pending
        looking_for := st.looking_for + 1
        emitted := st.emitted ++ [b] } := by
  rw [drain]
  split
  · rename_i heq
    rw [h] at heq
    cases heq
  · rename_i b' heq
    rw [h] at heq
    injection heq with hb
    subst hb
    simp [he]

/-- What one run of the inner drain loop does, provided the pending dict is
well-keyed and has no duplicate keys: it emits some number `r` of blocks
whose numbers are exactly the consecutive run `looking_for, looking_for+1,
…` (in that order), removes exactly those keys from the dict, and either
stops at a gap (the new cursor is absent from the dict) or stops because
the configured end was emitted. -/
theorem drain_spec (e : Nat) (st : ConsumerState) :
    EntriesOk st.pending → (pkeys st.pending).Nodup →
    ∃ r : Nat,
      (drain e st).emitted.map Block.number
        = st.emitted.map Block.number ++ List.range' st.looking_for r ∧
      List.Perm (pkeys (drain e st).pending ++ List.range' st.looking_for r)
        (pkeys st.pending) ∧
      EntriesOk (drain e st).pending ∧
      ((drain e st).looking_for = st.looking_for + r ∧
        dlookup (drain e st).looking_for (drain e st).pending = none
       ∨ (drain e st).looking_for = e ∧ st.looking_for + r = e + 1) := by
  induction st using drain.induct e with
  | case1 st h =>
    intro hkv _
    exact ⟨0, by simp [drain_eq_none e st h],
      by simp [drain_eq_none e st h],
      by simpa [drain_eq_none e st h] using hkv,
      Or.inl (by simp [drain_eq_none e st h, h])⟩
  | case2 st b h he =>
    intro hkv _
    have hmem : st.looking_for ∈ pkeys st.pending := by
      by_contra hc
      rw [← dlookup_eq_none_iff] at hc
      rw [h] at hc
      cases hc
    have hbn : st.looking_for = b.number := hkv _ (dlookup_mem _ _ _ h)
    refine ⟨1, ?_, ?_, ?_, Or.inr ⟨?_, ?_⟩⟩
    · simp [drain_eq_break e st b h he, ← hbn, List.range'_one]
    · rw [drain_eq_break e st b h he]
      simp only [List.range'_one]
      exact List.Perm.trans (List.perm_append_comm)
        (pkeys_derase_perm _ _ hmem)
    · rw [drain_eq_break e st b h he]
      exact entriesOk_derase _ _ hkv
    · simp [drain_eq_break e st b h he, he]
    · simp [drain_eq_break e st b h he, he]
  | case3 st b h he ih =>
    intro hkv hnd
    have hmem : st.looking_for ∈ pkeys st.pending := by
      by_contra hc
      rw [← dlookup_eq_none_iff] at hc
      rw [h] at hc
      cases hc
    have hbn : st.looking_for = b.number := hkv _ (dlookup_mem _ _ _ h)
    have hpd := pkeys_derase_perm _ _ hmem
    have hkv' : EntriesOk (derase st.looking_for st.pending) :=
      entriesOk_derase _ _ hkv
    have hnd' : (pkeys (derase st.looking_for st.pending)).Nodup :=
      List.Nodup.of_cons ((hpd.nodup_iff).mpr hnd)
    obtain ⟨r, hmap, hperm, hkv2, hdisj⟩ := ih hkv' hnd'
    rw [drain_eq_cont e st b h he]
    refine ⟨r + 1, ?_, ?_, hkv2, ?_⟩
    · rw [hmap]
      simp only [List.map_append, List.map_cons, List.map_nil, List.append_assoc,
        List.range'_succ]
      simp [← hbn]
    · have hr : List.range' st.looking_for (r + 1)
          = st.looking_for :: List.range' (st.looking_for + 1) r :=
        List.range'_succ _ _ _
      rw [hr]
      refine List.Perm.trans ?_ (List.Perm.trans (List.Perm.cons _ hperm) hpd)
      exact List.perm_middle
    · dsimp only at hdisj
      rcases hdisj with ⟨hl, hn⟩ | ⟨hl, hn⟩
      · exact Or.inl ⟨by omega, hn⟩
      · exact Or.inr ⟨hl, by omega⟩

/-! ### Consumer-loop invariant -/

theorem pkeys_append (l₁ l₂ : List (Nat × Block)) :
    pkeys (l₁ ++ l₂) = pkeys l₁ ++ pkeys l₂ :=
  List.map_append _ _ _

/-- Invariant of the consumer loop for a session with resolved start `s`
and end `e`: after the loop has already emitted the numbers
`s+1, …, s+m` (in order), the keys parked in `pending` together with the
numbers still to arrive (`restNums`) are exactly the not-yet-emitted part
of the range, and either the cursor sits just past the emitted run on a
gap, or the whole range has been emitted (the loop broke at `end_block`). -/
def StreamInv (s e : Nat) (st : ConsumerState) (restNums : List Nat) : Prop :=
  EntriesOk st.pending ∧
  ∃ m : Nat,
    st.emitted.map Block.number = List.range' (s + 1) m ∧
    m ≤ e - s ∧
    List.Perm (pkeys st.pending ++ restNums) (List.range' (s + 1 + m) (e - s - m)) ∧
    ((m < e - s ∧ st.looking_for = s + 1 + m ∧
        dlookup st.looking_for st.pending = none)
      ∨ m = e - s)

theorem receive_preserves_inv (s e : Nat) (st : ConsumerState) (b : Block)
    (rest : List Nat) (hinv : StreamInv s e st (b.number :: rest)) :
    StreamInv s e (receive_block e st b) rest := by
  obtain ⟨hkv, m, hem, hmle, hperm, hdisj⟩ := hinv
  have hndall : (pkeys st.pending ++ b.number :: rest).Nodup :=
    (hperm.nodup_iff).mpr (List.nodup_range' _ _)
  have hnpk : (pkeys st.pending).Nodup := (List.nodup_append.mp hndall).1
  have hdisjoint := (List.nodup_append.mp hndall).2.2
  have hbn_not : b.number ∉ pkeys st.pending := fun hmem =>
    hdisjoint hmem (List.mem_cons_self _ _)
  rcases hdisj with ⟨hmlt, hlf, hnone⟩ | hme
  · show StreamInv s e
      (drain e { pending := dinsert b.number b st.pending
                 looking_for := st.looking_for
                 emitted := st.emitted }) rest
    rw [hlf]
    have hins : dinsert b.number b st.pending = st.pending ++ [(b.number, b)] :=
      dinsert_of_not_mem _ _ _ hbn_not
    have hkv1 : EntriesOk (dinsert b.number b st.pending) :=
      entriesOk_dinsert _ _ _ rfl hkv
    have hpk1 : pkeys (dinsert b.number b st.pending)
        = pkeys st.pending ++ [b.number] := by
      rw [hins, pkeys_append]
      rfl
    have hnd1 : (pkeys (dinsert b.number b st.pending)).Nodup := by
      rw [hpk1]
      refine List.Nodup.sublist ?_ hndall
      exact List.Sublist.append_left
        (List.cons_sublist_cons.mpr (List.nil_sublist _)) _
    obtain ⟨r, hmap, hperm2, hkv2, hdisj2⟩ :=
      drain_spec e
        { pending := dinsert b.number b st.pending
          looking_for := s + 1 + m
          emitted := st.emitted } hkv1 hnd1
    dsimp only at hmap hperm2 hkv2 hdisj2
    rw [hpk1] at hperm2
    have heq1 : (pkeys st.pending ++ [b.number]) ++ rest
        = pkeys st.pending ++ b.number :: rest := by simp
    have hcomb : List.Perm
        ((pkeys (drain e
            { pending := dinsert b.number b st.pending
              looking_for := s + 1 + m
              emitted := st.emitted }).pending
            ++ List.range' (s + 1 + m) r) ++ rest)
        (List.range' (s + 1 + m) (e - s - m)) := by
      refine List.Perm.trans (List.Perm.append_right rest hperm2) ?_
      rw [heq1]
      exact hperm
    have hrle : r ≤ e - s - m := by
      have hlen := hcomb.length_eq
      simp only [List.length_append, List.length_range'] at hlen
      omega
    refine ⟨hkv2, m + r, ?_, by omega, ?_, ?_⟩
    · rw [hmap, hem, show m + r = r + m from Nat.add_comm m r,
        ← List.range'_append_1]
    · have hsplit : List.range' (s + 1 + m) r ++ List.range' (s + 1 + m + r) (e - s - m - r)
          = List.range' (s + 1 + m) (e - s - m) := by
        rw [List.range'_append_1]
        rw [show e - s - m - r + r = e - s - m from by omega]
      have hmain : List.Perm
          (List.range' (s + 1 + m) r
            ++ (pkeys (drain e
                { pending := dinsert b.number b st.pending
                  looking_for := s + 1 + m
                  emitted := st.emitted }).pending
                ++ rest))
          (List.range' (s + 1 + m) r
            ++ List.range' (s + 1 + m + r) (e - s - m - r)) := by
        rw [← List.append_assoc, hsplit]
        exact List.Perm.trans
          (List.Perm.append_right rest (List.perm_append_comm)) hcomb
      have hXrest := (List.perm_append_left_iff _).mp hmain
      rw [show s + 1 + (m + r) = s + 1 + m + r from by omega,
        show e - s - (m + r) = e - s - m - r from by omega]
      exact hXrest
    · rcases hdisj2 with ⟨hl2, hn2⟩ | ⟨hl2, hn2⟩
      · by_cases hlt : m + r < e - s
        · refine Or.inl ⟨hlt, ?_, hn2⟩
          rw [hl2]
          omega
        · exact Or.inr (by omega)
      · exact Or.inr (by omega)
  · exfalso
    have hlen := hperm.length_eq
    simp only [List.length_append, List.length_cons, List.length_range', hme,
      Nat.sub_self] at hlen
    omega

theorem consume_inv (s e : Nat) (arrivals : List Block) :
    ∀ st : ConsumerState, StreamInv s e st (arrivals.map Block.number) →
      StreamInv s e (consume e st arrivals) [] := by
  induction arrivals with
  | nil => exact fun st h => h
  | cons b rest ih =>
    exact fun st h => ih _ (receive_preserves_inv s e st b _ h)

theorem consume_emitted_of_inv (s e : Nat) (st : ConsumerState)
    (hinv : StreamInv s e st []) :
    st.emitted.map Block.number = List.range' (s + 1) (e - s) := by
  obtain ⟨hkv, m, hem, hmle, hperm, hdisj⟩ := hinv
  rcases hdisj with ⟨hmlt, hlf, hnone⟩ | hme
  · exfalso
    have hmem : s + 1 + m ∈ List.range' (s + 1 + m) (e - s - m) := by
      rw [List.mem_range'_1]
      omega
    have hmem2 : s + 1 + m ∈ pkeys st.pending ++ [] :=
      (hperm.mem_iff).mpr hmem
    rw [List.append_nil] at hmem2
    rw [dlookup_eq_none_iff, hlf] at hnone
    exact hnone hmem2
  · rw [hem, hme]

theorem streamInv_init (s e : Nat) (nums : List Nat)
    (hperm : List.Perm nums (List.range' (s + 1) (e - s))) :
    StreamInv s e (init_consumer s) nums := by
  refine ⟨fun p hp => absurd hp (List.not_mem_nil p), 0, rfl, Nat.zero_le _, ?_, ?_⟩
  · simpa using hperm
  · by_cases h0 : 0 < e - s
    · exact Or.inl ⟨h0, rfl, rfl⟩
    · exact Or.inr (by omega)

/-! ### Spawner-side invariant machinery -/

theorem run_preserves (e : Nat) (P : SpawnerState → Prop)
    (hstep : ∀ st a, P st → P (step e st a)) :
    ∀ acts st, P st → P (run e st acts) := by
  intro acts
  induction acts with
  | nil => exact fun st h => h
  | cons a rest ih => exact fun st h => ih _ (hstep st a h)

/-- Exhaustive description of what one spawner iteration can do: already
out of the loop; exiting the loop (`current_block = end_block`); blocked
at `await tasks[0].wait()`; pop-then-spawn; or plain spawn. -/
theorem spawn_step_cases (e : Nat) (st : SpawnerState) :
    (st.done_loop = true ∧ spawn_step e st = st) ∨
    (st.done_loop = false ∧ st.current_block = e ∧
      spawn_step e st = { st with done_loop := true }) ∨
    (st.done_loop = false ∧ st.current_block ≠ e ∧
      ((narrow_check st).all_tasks.drop (narrow_check st).pop_count).length
          > (narrow_check st).max_tasks ∧
      (narrow_check st).all_tasks.getD (narrow_check st).pop_count false = false ∧
      spawn_step e st = narrow_check st) ∨
    (st.done_loop = false ∧ st.current_block ≠ e ∧
      ((narrow_check st).all_tasks.drop (narrow_check st).pop_count).length
          > (narrow_check st).max_tasks ∧
      (narrow_check st).all_tasks.getD (narrow_check st).pop_count false = true ∧
      spawn_step e st
        = advance { narrow_check st with
            pop_count := (narrow_check st).pop_count + 1 }) ∨
    (st.done_loop = false ∧ st.current_block ≠ e ∧
      ¬ (((narrow_check st).all_tasks.drop (narrow_check st).pop_count).length
          > (narrow_check st).max_tasks) ∧
      spawn_step e st = advance (narrow_check st)) := by
  unfold spawn_step
  by_cases h1 : st.done_loop
  · exact Or.inl ⟨h1, by simp [h1]⟩
  · rw [Bool.not_eq_true] at h1
    by_cases h2 : st.current_block = e
    · exact Or.inr (Or.inl ⟨h1, h2, by simp [h1, h2]⟩)
    · by_cases h3 : ((narrow_check st).all_tasks.drop (narrow_check st).pop_count).length
          > (narrow_check st).max_tasks
      · by_cases h4 : (narrow_check st).all_tasks.getD (narrow_check st).pop_count false
        · refine Or.inr (Or.inr (Or.inr (Or.inl ⟨h1, h2, h3, h4, ?_⟩)))
          simp only [List.length_drop, List.getD_eq_getElem?_getD] at h3 h4
          simp [h1, h2, h3, h4]
        · rw [Bool.not_eq_true] at h4
          refine Or.inr (Or.inr (Or.inl ⟨h1, h2, h3, h4, ?_⟩))
          simp only [List.length_drop, List.getD_eq_getElem?_getD] at h3 h4
          simp [h1, h2, h3, h4]
      · refine Or.inr (Or.inr (Or.inr (Or.inr ⟨h1, h2, h3, ?_⟩)))
        simp only [List.length_drop] at h3
        simp [h1, h2, h3]

theorem narrow_check_current_block (st : SpawnerState) :
    (narrow_check st).current_block = st.current_block := by
  unfold narrow_check
  split <;> rfl

theorem narrow_check_spawned (st : SpawnerState) :
    (narrow_check st).spawned = st.spawned := by
  unfold narrow_check
  split <;> rfl

theorem narrow_check_done_loop (st : SpawnerState) :
    (narrow_check st).done_loop = st.done_loop := by
  unfold narrow_check
  split <;> rfl

theorem narrow_check_all_tasks (st : SpawnerState) :
    (narrow_check st).all_tasks = st.all_tasks := by
  unfold narrow_check
  split <;> rfl

theorem narrow_check_pop_count (st : SpawnerState) :
    (narrow_check st).pop_count = st.pop_count := by
  unfold narrow_check
  split <;> rfl

theorem narrow_check_head_block (st : SpawnerState) :
    (narrow_check st).head_block = st.head_block := by
  unfold narrow_check
  split <;> rfl

theorem narrow_check_max_tasks (st : SpawnerState) :
    (narrow_check st).max_tasks = st.max_tasks ∨ (narrow_check st).max_tasks = 3 := by
  unfold narrow_check
  split
  · exact Or.inr rfl
  · exact Or.inl rfl

/-- Invariant tying the dispatched block numbers to the loop counter:
`block_task_spawner` has dispatched exactly `start+1 … current_block`,
in ascending order, and the loop exits only at `current_block = end`. -/
def SpawnInv (s e : Nat) (st : SpawnerState) : Prop :=
  s ≤ st.current_block ∧
  st.spawned = List.range' (s + 1) (st.current_block - s) ∧
  (st.done_loop = true → st.current_block = e)

theorem spawnInv_advance (s e : Nat) (st : SpawnerState)
    (h1 : s ≤ st.current_block)
    (h2 : st.spawned = List.range' (s + 1) (st.current_block - s))
    (hd : st.done_loop = false) :
    SpawnInv s e (advance st) := by
  refine ⟨Nat.le_succ_of_le h1, ?_, ?_⟩
  · show st.spawned ++ [st.current_block + 1]
        = List.range' (s + 1) (st.current_block + 1 - s)
    rw [h2, show st.current_block + 1 - s = st.current_block - s + 1 from by omega,
      List.range'_1_concat,
      show s + 1 + (st.current_block - s) = st.current_block + 1 from by omega]
  · intro hh
    exact absurd (hd.symm.trans hh) Bool.false_ne_true

theorem spawnInv_step (s e : Nat) (st : SpawnerState) (a : Act)
    (h : SpawnInv s e st) : SpawnInv s e (step e st a) := by
  obtain ⟨h1, h2, h3⟩ := h
  cases a with
  | taskComplete i => exact ⟨h1, h2, h3⟩
  | headUpdate hh =>
    show SpawnInv s e
      (if st.need_head_updates then { st with updater_head_local := some hh } else st)
    split
    · exact ⟨h1, h2, h3⟩
    · exact ⟨h1, h2, h3⟩
  | spawnStep =>
    show SpawnInv s e (spawn_step e st)
    rcases spawn_step_cases e st with ⟨hd, heq⟩ | ⟨hd, hc, heq⟩ | ⟨hd, hc, _, _, heq⟩ |
      ⟨hd, hc, _, _, heq⟩ | ⟨hd, hc, _, heq⟩
    · rw [heq]
      exact ⟨h1, h2, h3⟩
    · rw [heq]
      exact ⟨h1, h2, fun _ => hc⟩
    · rw [heq]
      refine ⟨?_, ?_, ?_⟩
      · rw [narrow_check_current_block]
        exact h1
      · rw [narrow_check_spawned, narrow_check_current_block]
        exact h2
      · rw [narrow_check_done_loop]
        exact fun hh => absurd (hd.symm.trans hh) Bool.false_ne_true
    · rw [heq]
      refine spawnInv_advance s e _ ?_ ?_ ?_
      · show s ≤ (narrow_check st).current_block
        rw [narrow_check_current_block]
        exact h1
      · show (narrow_check st).spawned
            = List.range' (s + 1) ((narrow_check st).current_block - s)
        rw [narrow_check_spawned, narrow_check_current_block]
        exact h2
      · show (narrow_check st).done_loop = false
        rw [narrow_check_done_loop]
        exact hd
    · rw [heq]
      refine spawnInv_advance s e _ ?_ ?_ ?_
      · rw [narrow_check_current_block]
        exact h1
      · rw [narrow_check_spawned, narrow_check_current_block]
        exact h2
      · rw [narrow_check_done_loop]
        exact hd

theorem spawnInv_run (s e : Nat) (acts : List Act) (st : SpawnerState)
    (h : SpawnInv s e st) : SpawnInv s e (run e st acts) :=
  run_preserves e (SpawnInv s e) (spawnInv_step s e) acts st h

/-- C1: for a successful streaming session with resolved concrete start `s`
and concrete end `e` (`s ≤ e`), whatever order the concurrently fetched
blocks arrive in (the arrivals' numbers are any permutation of the
dispatched numbers `s+1 … e`), the sequence of emitted items' numbers is
exactly `s, s+1, …, e`: strictly increasing by 1, gapless, each number
exactly once; moreover any spawner run that completed its loop dispatched
exactly the numbers `s+1 … e`. -/
theorem C1_emission_order (startBlk : Block) (e : Nat) (arrivals : List Block)
    (hse : startBlk.number ≤ e)
    (hperm : List.Perm (arrivals.map Block.number)
      (List.range' (startBlk.number + 1) (e - startBlk.number))) :
    (stream_emitted startBlk e arrivals).map Block.number
        = List.range' startBlk.number (e - startBlk.number + 1) ∧
    ∀ head mt acts,
      (run e (init_spawner startBlk.number head mt e) acts).done_loop = true →
      (run e (init_spawner startBlk.number head mt e) acts).spawned
        = List.range' (startBlk.number + 1) (e - startBlk.number) := by
  constructor
  · show (startBlk :: (consume e (init_consumer startBlk.number) arrivals).emitted).map
        Block.number = _
    rw [List.map_cons]
    rw [consume_emitted_of_inv _ _ _ (consume_inv _ _ _ _ (streamInv_init _ _ _ hperm))]
    rw [List.range'_succ]
  · intro head mt acts hdone
    have hinv := spawnInv_run startBlk.number e acts (init_spawner startBlk.number head mt e)
      ⟨Nat.le.refl, by simp [init_spawner], fun hh => absurd hh (by simp [init_spawner])⟩
    obtain ⟨h1, h2, h3⟩ := hinv
    rw [h2, h3 hdone]

/-- Witness for C1 at a concrete session: start block 2, end 5, fetched
blocks arriving out of order (4 before 3). -/
theorem C1_emission_order_witness :
    (stream_emitted ⟨2, 9⟩ 5 [⟨4, 7⟩, ⟨3, 7⟩, ⟨5, 7⟩]).map Block.number
        = List.range' 2 4 :=
  (C1_emission_order ⟨2, 9⟩ 5 [⟨4, 7⟩, ⟨3, 7⟩, ⟨5, 7⟩] (by decide) (by decide)).1

/-! ### Claim theorems: fetch-task retry behaviour, head tracking, range resolution -/

/-- C2 (code-bug evidence): when a fetch task exhausts its 8 attempts,
`block_task` still falls through to `send(block)` (line 133) — there is no
raise after the loop.  If every attempt returned a zero-timestamp block,
the last such block is sent and the consumer emits it like a valid item
(the stream keeps running, no FetchExhausted); if every attempt returned
absence, the Python value `None` is sent (and the consumer then crashes on
`None.number` with `AttributeError`, not a FetchExhausted error). -/
theorem C2_exhaustion_behavior :
    block_task (List.replicate 8 (Except.ok (some (⟨55, 0⟩ : Block))))
        = some (some ⟨55, 0⟩) ∧
    (receive_block 60 (init_consumer 54) ⟨55, 0⟩).emitted = [⟨55, 0⟩] ∧
    block_task (List.replicate 8 (Except.ok (none : Option Block))) = some none := by
  refine ⟨by decide, ?_, by decide⟩
  have e1 : receive_block 60 (init_consumer 54) (⟨55, 0⟩ : Block)
      = drain 60 { pending := [(55, ⟨55, 0⟩)], looking_for := 55, emitted := [] } := rfl
  rw [e1, drain_eq_cont 60 _ ⟨55, 0⟩ (by decide) (by decide),
    drain_eq_none 60 _ (by decide)]
  rfl

/-- C3 (code-bug evidence): `head_block_updater` fetches a new head (20)
but binds it to a variable local to itself (line 114 has no
`nonlocal head_block`); the enclosing `head_block` stays at its initial
value (10), so the spawner's window-narrowing comparison still uses the
stale head: with `current_block = 8` it computes `10 - 8 ≤ 3` and narrows
to 3 even though the freshly fetched head (20) is 12 ahead. -/
theorem C3_head_update_lost :
    (run 1000000 (init_spawner 8 10 10 1000000) [Act.headUpdate 20]).head_block = 10 ∧
    (run 1000000 (init_spawner 8 10 10 1000000) [Act.headUpdate 20]).updater_head_local
        = some 20 ∧
    (spawn_step 1000000
        (run 1000000 (init_spawner 8 10 10 1000000) [Act.headUpdate 20])).max_tasks
        = 3 := by
  decide

/-- C6 counterexample: a protocol-level error (`json_rpc` raising
`ValueError` on an error envelope) occurring during a fetch attempt is
caught by the retry loop's `except ValueError` (line 130) and the task
simply proceeds to the next attempt — it succeeds exactly as if the error
had never happened, so the error is not fatal and not propagated. -/
theorem C6_counterexample :
    block_task [Except.error (), Except.ok (some (⟨7, 100⟩ : Block))]
        = some (some ⟨7, 100⟩) ∧
    block_task [Except.error (), Except.ok (some (⟨7, 100⟩ : Block))]
        = block_task [Except.ok (some (⟨7, 100⟩ : Block))] := by
  decide

/-- C6 amended: an error member in the JSON-RPC envelope makes `json_rpc`
raise (fatal wherever it is not caught, e.g. start resolution or head
queries), but inside a fetch task's attempt that `ValueError` is caught by
the retry loop and treated as one more retryable attempt failure. -/
theorem C6_amended (rest : List Attempt) (bound : Option (Option Block))
    (r : JSONRPCResult) (h : r.error.isSome = true) :
    json_rpc_check r = Except.error r ∧
    block_task_loop (Except.error () :: rest) bound = block_task_loop rest bound := by
  constructor
  · unfold json_rpc_check
    rw [if_pos h]
  · rfl

theorem C6_amended_witness :
    json_rpc_check ⟨1, none, some "err"⟩ = Except.error ⟨1, none, some "err"⟩ ∧
    block_task_loop [Except.error ()] none = block_task_loop [] none :=
  C6_amended [] none ⟨1, none, some "err"⟩ (by decide)

/-- C7: when start resolution returns absence the stream fails with the
start-not-found `ValueError` and no item is ever emitted; when the start
resolves, the resolved start block is the very first emitted item,
independent of anything the concurrent fetch machinery later delivers. -/
theorem C7_start_resolution (e : Nat) (arrivals : List Block) (b : Block) :
    stream_blocks_emissions none e arrivals
        = Except.error "Couldn\t find start block" ∧
    (∀ l : List Block, stream_blocks_emissions none e arrivals ≠ Except.ok l) ∧
    stream_blocks_emissions (some b) e arrivals
        = Except.ok (b :: (consume e (init_consumer b.number) arrivals).emitted) ∧
    (stream_emitted b e arrivals).head? = some b :=
  ⟨rfl, fun _ h => Except.noConfusion h, rfl, rfl⟩

/-- C9: a falsy `end_block` — `None` or the integer `0` — is replaced by
`2 ** 64`, the open-ended sentinel; so asking for a bounded stream ending
at sequence number 0 yields the same effectively unbounded range as not
bounding the stream at all, while any nonzero concrete end is kept. -/
theorem C9_falsy_end (e : Nat) (he : e ≠ 0) :
    resolve_end none = 2 ^ 64 ∧
    resolve_end (some 0) = 2 ^ 64 ∧
    resolve_end (some 0) = resolve_end none ∧
    resolve_end (some e) = e := by
  refine ⟨rfl, rfl, rfl, ?_⟩
  show (if e = 0 then 2 ^ 64 else e) = e
  rw [if_neg he]

theorem C9_falsy_end_witness :
    resolve_end none = 2 ^ 64 ∧
    resolve_end (some 0) = 2 ^ 64 ∧
    resolve_end (some 0) = resolve_end none ∧
    resolve_end (some 7) = 7 :=
  C9_falsy_end 7 (by decide)

/-! ### Window-limit ratchet (C5) -/

theorem narrow_check_triggered (st : SpawnerState)
    (h : (st.head_block : Int) - (st.current_block : Int) ≤ 3) :
    (narrow_check st).max_tasks = 3 := by
  unfold narrow_check
  rw [if_pos h]

theorem step_max_tasks (e : Nat) (st : SpawnerState) (a : Act) :
    (step e st a).max_tasks = st.max_tasks ∨ (step e st a).max_tasks = 3 := by
  cases a with
  | taskComplete i => exact Or.inl rfl
  | headUpdate hh =>
    show (if st.need_head_updates then
      ({ st with updater_head_local := some hh } : SpawnerState) else st).max_tasks
        = st.max_tasks ∨ _
    split
    · exact Or.inl rfl
    · exact Or.inl rfl
  | spawnStep =>
    show (spawn_step e st).max_tasks = st.max_tasks ∨ (spawn_step e st).max_tasks = 3
    rcases spawn_step_cases e st with ⟨_, heq⟩ | ⟨_, _, heq⟩ | ⟨_, _, _, _, heq⟩ |
      ⟨_, _, _, _, heq⟩ | ⟨_, _, _, heq⟩
    · rw [heq]
      exact Or.inl rfl
    · rw [heq]
      exact Or.inl rfl
    · rw [heq]
      exact narrow_check_max_tasks st
    · rw [heq]
      exact narrow_check_max_tasks st
    · rw [heq]
      exact narrow_check_max_tasks st

theorem max_tasks_ratchet (e : Nat) (acts : List Act) (st : SpawnerState)
    (h : st.max_tasks = 3) : (run e st acts).max_tasks = 3 :=
  run_preserves e (fun s => s.max_tasks = 3)
    (fun s a hs => (step_max_tasks e s a).elim (fun h' => h'.trans hs) (fun h' => h'))
    acts st h

/-- C5 amended: the code narrows on `head_block - current_block ≤ 3`,
that is `headEstimate - nextToSpawn ≤ 2` (one position later than the
claimed `headEstimate - nextToSpawn ≤ 3`); once the limit has been set
to 3 it stays 3 for the remainder of the session under every schedule —
the one-way ratchet part of the claim holds. -/
theorem C5_window_ratchet (e : Nat) (st : SpawnerState)
    (hd : st.done_loop = false) (hc : st.current_block ≠ e)
    (htrig : (st.head_block : Int) - (st.current_block : Int) ≤ 3) :
    (spawn_step e st).max_tasks = 3 ∧
    ∀ st' : SpawnerState, st'.max_tasks = 3 →
      ∀ acts : List Act, (run e st' acts).max_tasks = 3 := by
  constructor
  · rcases spawn_step_cases e st with ⟨hd', heq⟩ | ⟨_, hc', heq⟩ | ⟨_, _, _, _, heq⟩ |
      ⟨_, _, _, _, heq⟩ | ⟨_, _, _, heq⟩
    · exact absurd (hd.symm.trans hd') Bool.false_ne_true
    · exact absurd hc' hc
    · rw [heq]
      exact narrow_check_triggered st htrig
    · rw [heq]
      exact narrow_check_triggered st htrig
    · rw [heq]
      exact narrow_check_triggered st htrig
  · exact fun st' h acts => max_tasks_ratchet e acts st' h

theorem C5_window_ratchet_witness :
    (spawn_step 100 (init_spawner 5 6 10 100)).max_tasks = 3 ∧
    (run 100 (init_spawner 7 50 3 100) [Act.spawnStep, Act.taskComplete 0]).max_tasks = 3 :=
  ⟨(C5_window_ratchet 100 (init_spawner 5 6 10 100)
      (by decide) (by decide) (by decide)).1,
   (C5_window_ratchet 100 (init_spawner 5 6 10 100)
      (by decide) (by decide) (by decide)).2
     (init_spawner 7 50 3 100) (by decide) [Act.spawnStep, Act.taskComplete 0]⟩

/-- C5 counterexample: at session start with head 4 and resolved start 0,
the claim's trigger `headEstimate - nextToSpawn ≤ 3` already holds
(`nextToSpawn = current_block + 1 = 1` and `4 - 1 = 3`), yet after the
spawner's next iteration the window limit is still 10 (exceeding 3):
the code's check `head_block - current_block ≤ 3` compares against
`current_block`, which is one below the next number to spawn. -/
theorem C5_counterexample :
    ((init_spawner 0 4 10 100).head_block : Int)
        - (((init_spawner 0 4 10 100).current_block + 1 : Nat) : Int) ≤ 3 ∧
    (run 100 (init_spawner 0 4 10 100) [Act.spawnStep]).max_tasks = 10 ∧
    3 < (run 100 (init_spawner 0 4 10 100) [Act.spawnStep]).max_tasks := by
  decide

/-! ### Window occupancy bound (C4) -/

theorem getD_set_true (l : List Bool) (i j : Nat)
    (h : l.getD j false = true) : (l.set i true).getD j false = true := by
  induction l generalizing i j with
  | nil => simpa using h
  | cons a rest ih =>
    cases i with
    | zero =>
      cases j with
      | zero => simp
      | succ j' => simpa using h
    | succ i' =>
      cases j with
      | zero => simpa using h
      | succ j' =>
        simp only [List.set, List.getD_eq_getElem?_getD, List.getElem?_cons_succ]
        simp only [List.getD_eq_getElem?_getD, List.getElem?_cons_succ] at h
        have := ih i' j' (by simpa using h)
        simpa using this

theorem getD_append_left_bool (l₁ l₂ : List Bool) (i : Nat)
    (h : i < l₁.length) : (l₁ ++ l₂).getD i false = l₁.getD i false := by
  simp only [List.getD_eq_getElem?_getD]
  rw [List.getElem?_append_left h]

theorem getD_false_of_length_le (l : List Bool) (i : Nat)
    (h : l.length ≤ i) : l.getD i false = false := by
  simp only [List.getD_eq_getElem?_getD]
  rw [List.getElem?_eq_none h]
  rfl

/-- Invariant bounding the spawner's task bookkeeping: the window limit
never exceeds its initial default 10, the wait-list (`all_tasks` minus the
popped ones) never holds more than 11 events, and every popped event was
awaited, hence set. -/
def WindowInv (st : SpawnerState) : Prop :=
  st.max_tasks ≤ 10 ∧
  st.pop_count ≤ st.all_tasks.length ∧
  st.all_tasks.length ≤ st.pop_count + 11 ∧
  ∀ i, i < st.pop_count → st.all_tasks.getD i false = true

theorem windowInv_step (e : Nat) (st : SpawnerState) (a : Act)
    (h : WindowInv st) : WindowInv (step e st a) := by
  obtain ⟨hm, hp, hl, ht⟩ := h
  cases a with
  | taskComplete i =>
    show WindowInv { st with all_tasks := st.all_tasks.set i true }
    refine ⟨hm, ?_, ?_, ?_⟩
    · simpa using hp
    · simpa using hl
    · intro j hj
      exact getD_set_true st.all_tasks i j (ht j hj)
  | headUpdate hh =>
    show WindowInv (if st.need_head_updates then
      ({ st with updater_head_local := some hh } : SpawnerState) else st)
    split
    · exact ⟨hm, hp, hl, ht⟩
    · exact ⟨hm, hp, hl, ht⟩
  | spawnStep =>
    show WindowInv (spawn_step e st)
    have hmn : (narrow_check st).max_tasks ≤ 10 := by
      rcases narrow_check_max_tasks st with h' | h' <;> rw [h'] <;> omega
    rcases spawn_step_cases e st with ⟨_, heq⟩ | ⟨_, _, heq⟩ | ⟨_, _, _, _, heq⟩ |
      ⟨_, _, h3, h4, heq⟩ | ⟨_, _, h3, heq⟩
    · rw [heq]
      exact ⟨hm, hp, hl, ht⟩
    · rw [heq]
      exact ⟨hm, hp, hl, ht⟩
    · rw [heq]
      refine ⟨hmn, ?_, ?_, ?_⟩
      · rw [narrow_check_all_tasks, narrow_check_pop_count]
        exact hp
      · rw [narrow_check_all_tasks, narrow_check_pop_count]
        exact hl
      · intro j hj
        rw [narrow_check_all_tasks]
        rw [narrow_check_pop_count] at hj
        exact ht j hj
    · rw [heq]
      rw [narrow_check_all_tasks, narrow_check_pop_count] at h4
      have hplt : st.pop_count < st.all_tasks.length := by
        by_contra hge
        push_neg at hge
        rw [getD_false_of_length_le st.all_tasks st.pop_count hge] at h4
        cases h4
      refine ⟨hmn, ?_, ?_, ?_⟩
      · show (narrow_check st).pop_count + 1 ≤ ((narrow_check st).all_tasks ++ [false]).length
        rw [narrow_check_all_tasks, narrow_check_pop_count]
        simp only [List.length_append, List.length_cons, List.length_nil]
        omega
      · show ((narrow_check st).all_tasks ++ [false]).length ≤ (narrow_check st).pop_count + 1 + 11
        rw [narrow_check_all_tasks, narrow_check_pop_count]
        simp only [List.length_append, List.length_cons, List.length_nil]
        omega
      · intro j hj
        show ((narrow_check st).all_tasks ++ [false]).getD j false = true
        rw [narrow_check_all_tasks]
        have hjp : j ≤ st.pop_count := by
          have hj2 : j < (narrow_check st).pop_count + 1 := hj
          rw [narrow_check_pop_count] at hj2
          omega
        have hjlen : j < st.all_tasks.length := by omega
        rw [getD_append_left_bool st.all_tasks [false] j hjlen]
        rcases Nat.lt_or_ge j st.pop_count with hlt | hge
        · exact ht j hlt
        · have hje : j = st.pop_count := by omega
          rw [hje]
          exact h4
    · rw [heq]
      rw [narrow_check_all_tasks, narrow_check_pop_count] at h3
      have hlen2 : st.all_tasks.length - st.pop_count ≤ (narrow_check st).max_tasks := by
        simp only [List.length_drop] at h3
        omega
      refine ⟨hmn, ?_, ?_, ?_⟩
      · show (narrow_check st).pop_count ≤ ((narrow_check st).all_tasks ++ [false]).length
        rw [narrow_check_all_tasks, narrow_check_pop_count]
        simp only [List.length_append, List.length_cons, List.length_nil]
        omega
      · show ((narrow_check st).all_tasks ++ [false]).length ≤ (narrow_check st).pop_count + 11
        rw [narrow_check_all_tasks, narrow_check_pop_count]
        simp only [List.length_append, List.length_cons, List.length_nil]
        omega
      · intro j hj
        show ((narrow_check st).all_tasks ++ [false]).getD j false = true
        rw [narrow_check_all_tasks]
        have hjp : j < st.pop_count := by
          have hj2 : j < (narrow_check st).pop_count := hj
          rw [narrow_check_pop_count] at hj2
          exact hj2
        have hjlen : j < st.all_tasks.length := by omega
        rw [getD_append_left_bool st.all_tasks [false] j hjlen]
        exact ht j hjp

theorem count_false_take_eq_zero (st : SpawnerState)
    (ht : ∀ i, i < st.pop_count → st.all_tasks.getD i false = true) :
    (st.all_tasks.take st.pop_count).count false = 0 := by
  rw [List.count_eq_zero]
  intro hmem
  obtain ⟨i, hi, hgi⟩ := List.mem_iff_getElem.mp hmem
  have hilen : i < st.all_tasks.length := by
    have := hi
    simp only [List.length_take] at this
    omega
  have hipop : i < st.pop_count := by
    have := hi
    simp only [List.length_take] at this
    omega
  have hti := ht i hipop
  rw [List.getD_eq_getElem?_getD, List.getElem?_eq_getElem hilen] at hti
  simp only [Option.getD_some] at hti
  rw [List.getElem_take] at hgi
  rw [hgi] at hti
  cases hti

theorem outstanding_le_of_windowInv (st : SpawnerState) (h : WindowInv st) :
    outstanding st ≤ 11 := by
  obtain ⟨hm, hp, hl, ht⟩ := h
  show st.all_tasks.count false ≤ 11
  have hsplit := List.take_append_drop st.pop_count st.all_tasks
  calc st.all_tasks.count false
      = (st.all_tasks.take st.pop_count ++ st.all_tasks.drop st.pop_count).count false := by
        rw [hsplit]
    _ = (st.all_tasks.take st.pop_count).count false
          + (st.all_tasks.drop st.pop_count).count false := List.count_append _ _ _
    _ = (st.all_tasks.drop st.pop_count).count false := by
        rw [count_false_take_eq_zero st ht, Nat.zero_add]
    _ ≤ (st.all_tasks.drop st.pop_count).length := List.count_le_length _ _
    _ ≤ 11 := by
        simp only [List.length_drop]
        omega

/-- C4 counterexample: with the default limit 10 and no task completing,
eleven consecutive spawner iterations each pass the admission check
(`len(tasks) > max_tasks` is false while `len(tasks) ≤ 10`) and spawn,
leaving 11 fetch tasks concurrently outstanding — one more than the
window limit. -/
theorem C4_counterexample :
    outstanding (run 50 (init_spawner 0 100 10 50) (List.replicate 11 Act.spawnStep)) = 11 ∧
    (run 50 (init_spawner 0 100 10 50) (List.replicate 11 Act.spawnStep)).max_tasks = 10 ∧
    (run 50 (init_spawner 0 100 10 50) (List.replicate 11 Act.spawnStep)).max_tasks
      < outstanding (run 50 (init_spawner 0 100 10 50) (List.replicate 11 Act.spawnStep)) := by
  decide

/-- C4 amended: the spawner waits only when the tracked-event list already
exceeds the current limit, so with the default initial limit 10 the number
of concurrently outstanding fetch tasks can reach, but never exceed,
11 = initial limit + 1, under every schedule of completions, head updates
and spawner iterations. -/
theorem C4_outstanding_bound (s h e : Nat) (acts : List Act) :
    outstanding (run e (init_spawner s h 10 e) acts) ≤ 11 := by
  refine outstanding_le_of_windowInv _ ?_
  refine run_preserves e WindowInv (windowInv_step e) acts _ ?_
  refine ⟨Nat.le.refl, Nat.zero_le _, Nat.zero_le _, ?_⟩
  intro i hi
  exact absurd hi (Nat.not_lt_zero i)

/-! ### Behaviour when the requested end lies below the start (C10) -/

/-- Once `current_block` is beyond `end_block`, the spawner's loop guard
`current_block != end_block` can never become false again: the counter
only increments. -/
def PastEndInv (e : Nat) (st : SpawnerState) : Prop :=
  st.done_loop = false ∧ e < st.current_block

theorem pastEndInv_step (e : Nat) (st : SpawnerState) (a : Act)
    (h : PastEndInv e st) : PastEndInv e (step e st a) := by
  obtain ⟨hd, hc⟩ := h
  cases a with
  | taskComplete i => exact ⟨hd, hc⟩
  | headUpdate hh =>
    show PastEndInv e (if st.need_head_updates then
      ({ st with updater_head_local := some hh } : SpawnerState) else st)
    split
    · exact ⟨hd, hc⟩
    · exact ⟨hd, hc⟩
  | spawnStep =>
    show PastEndInv e (spawn_step e st)
    rcases spawn_step_cases e st with ⟨hd', heq⟩ | ⟨_, hc', heq⟩ | ⟨_, _, _, _, heq⟩ |
      ⟨_, _, _, _, heq⟩ | ⟨_, _, _, heq⟩
    · exact absurd (hd.symm.trans hd') Bool.false_ne_true
    · exact absurd hc' (by omega)
    · rw [heq]
      refine ⟨?_, ?_⟩
      · rw [narrow_check_done_loop]
        exact hd
      · rw [narrow_check_current_block]
        exact hc
    · rw [heq]
      refine ⟨?_, ?_⟩
      · show (narrow_check st).done_loop = false
        rw [narrow_check_done_loop]
        exact hd
      · show e < (narrow_check st).current_block + 1
        rw [narrow_check_current_block]
        omega
    · rw [heq]
      refine ⟨?_, ?_⟩
      · show (narrow_check st).done_loop = false
        rw [narrow_check_done_loop]
        exact hd
      · show e < (narrow_check st).current_block + 1
        rw [narrow_check_current_block]
        omega

theorem drain_preserves_gt (e : Nat) (st : ConsumerState) :
    (EntriesOk st.pending ∧ e < st.looking_for ∧ ∀ b ∈ st.emitted, e < b.number) →
    (EntriesOk (drain e st).pending ∧ e < (drain e st).looking_for ∧
      ∀ b ∈ (drain e st).emitted, e < b.number) := by
  induction st using drain.induct e with
  | case1 st h =>
    intro hh
    rw [drain_eq_none e st h]
    exact hh
  | case2 st b h he =>
    intro hh
    exact absurd he (by omega)
  | case3 st b h he ih =>
    intro hh
    obtain ⟨hkv, hlf, hem⟩ := hh
    rw [drain_eq_cont e st b h he]
    apply ih
    refine ⟨entriesOk_derase _ _ hkv, ?_, ?_⟩
    · show e < st.looking_for + 1
      omega
    · intro b' hb'
      rcases List.mem_append.mp hb' with hmem | hmem
      · exact hem b' hmem
      · have hbb : b' = b := by simpa using hmem
        subst hbb
        have hbn : st.looking_for = b'.number := hkv _ (dlookup_mem _ _ _ h)
        omega

theorem consume_preserves_gt (e : Nat) (arrivals : List Block) :
    ∀ st : ConsumerState,
      (EntriesOk st.pending ∧ e < st.looking_for ∧ ∀ b ∈ st.emitted, e < b.number) →
      (EntriesOk (consume e st arrivals).pending ∧
        e < (consume e st arrivals).looking_for ∧
        ∀ b ∈ (consume e st arrivals).emitted, e < b.number) := by
  induction arrivals with
  | nil => exact fun st h => h
  | cons b rest ih =>
    intro st hh
    obtain ⟨hkv, hlf, hem⟩ := hh
    apply ih
    apply drain_preserves_gt
    exact ⟨entriesOk_dinsert _ _ _ rfl hkv, hlf, hem⟩

/-- C10: for a nonzero end strictly below the resolved start, the end is
kept as given (not replaced by the open-ended sentinel), the spawner's
stop condition `current_block != end_block` never becomes false under any
schedule (the loop counter starts above `end_block` and only increments),
the consumer's cursor always sits above `end_block` so the emission check
`looking_for == end_block` never fires, and every emitted item has a
sequence number strictly greater than `end_block`. -/
theorem C10_end_below_start (s h m e : Nat) (acts : List Act) (arrivals : List Block)
    (he : e ≠ 0) (hlt : e < s) :
    resolve_end (some e) = e ∧
    (run e (init_spawner s h m e) acts).done_loop = false ∧
    e < (run e (init_spawner s h m e) acts).current_block ∧
    e < (consume e (init_consumer s) arrivals).looking_for ∧
    ∀ b ∈ (consume e (init_consumer s) arrivals).emitted, e < b.number := by
  have hsp := run_preserves e (PastEndInv e) (pastEndInv_step e) acts
    (init_spawner s h m e) ⟨rfl, hlt⟩
  have hco := consume_preserves_gt e arrivals (init_consumer s)
    ⟨fun p hp => absurd hp (List.not_mem_nil p),
     by show e < s + 1; omega,
     fun b hb => absurd hb (List.not_mem_nil b)⟩
  refine ⟨?_, hsp.1, hsp.2, hco.2.1, hco.2.2⟩
  show (if e = 0 then 2 ^ 64 else e) = e
  rw [if_neg he]

theorem C10_end_below_start_witness :
    resolve_end (some 3) = 3 ∧
    (run 3 (init_spawner 5 0 10 3) [Act.spawnStep, Act.spawnStep]).done_loop = false ∧
    3 < (run 3 (init_spawner 5 0 10 3) [Act.spawnStep, Act.spawnStep]).current_block ∧
    3 < (consume 3 (init_consumer 5) [⟨6, 1⟩]).looking_for :=
  ⟨(C10_end_below_start 5 0 10 3 [Act.spawnStep, Act.spawnStep] [⟨6, 1⟩]
      (by decide) (by decide)).1,
   (C10_end_below_start 5 0 10 3 [Act.spawnStep, Act.spawnStep] [⟨6, 1⟩]
      (by decide) (by decide)).2.1,
   (C10_end_below_start 5 0 10 3 [Act.spawnStep, Act.spawnStep] [⟨6, 1⟩]
      (by decide) (by decide)).2.2.1,
   (C10_end_below_start 5 0 10 3 [Act.spawnStep, Act.spawnStep] [⟨6, 1⟩]
      (by decide) (by decide)).2.2.2.1⟩

end TrioWeb3
